import Mathlib

/-!
Shallow embedding of the animatch multi-source anime aggregation engine:
the normalized record data model, the aggregator merge pipeline
(`src/lib/data-sources/aggregator.ts`), the TTL cache, the MyAnimeList
rate limiter and the recommendation engine, together with theorems
checking the natural-language specification against the code.

Numbers are modelled as rationals.  JavaScript truthiness of optional
numbers and strings is modelled explicitly (`undefined` and `0`, resp.
`undefined` and `""`, are falsy).
-/

/-- Truthiness of an optional number, as JavaScript sees it: `undefined`
and `0` are falsy, every other number is truthy. -/
def truthy (q : Option ℚ) : Bool :=
  match q with
  | none => false
  | some v => v != 0

/-- Truthiness of an optional string: `undefined` and the empty string
are falsy. -/
def truthyStr (s : Option String) : Bool :=
  match s with
  | none => false
  | some v => !v.isEmpty

/-- JavaScript `a || b` on an optional string and a string default. -/
def jsOrStr (a : Option String) (b : String) : String :=
  match a with
  | some s => if s.isEmpty then b else s
  | none => b

/-- Title block of `AnimeData` (`base.ts`). -/
structure TitleInfo where
  english : Option String
  romaji : Option String
  native : Option String
  common : Option String
deriving DecidableEq, Repr

/-- Partial date (`startDate` / `endDate` in `base.ts`). -/
structure DateParts where
  year : Option ℚ
  month : Option ℚ
  day : Option ℚ
deriving DecidableEq, Repr

/-- Normalized anime record (`AnimeData` in `base.ts`).  Presentation-only
fields never read by the aggregation, cache or recommendation logic
(cover/banner images, popularity, userCount, duration, status, endDate,
relations, isAdult, lastUpdated) are omitted; the merge copies them from
the primary record exactly like the fields kept here. -/
structure AnimeData where
  id : String
  sourceId : String
  source : String
  title : TitleInfo
  description : Option String
  averageScore : Option ℚ
  episodes : Option ℚ
  startDate : Option DateParts
  genres : List String
  tags : List String
  demographics : Option (List String)
  themes : Option (List String)
  studios : Option (List String)
  producers : Option (List String)
  confidence : Option ℚ
deriving DecidableEq, Repr

/-- JavaScript `anime.confidence || 0`. -/
def confOr0 (a : AnimeData) : ℚ := a.confidence.getD 0

/-- JavaScript `anime.averageScore || 0`. -/
def scoreOr0 (a : AnimeData) : ℚ := a.averageScore.getD 0

/-- Default source weights of the aggregator configuration
(`DataAggregator` constructor in `aggregator.ts`). -/
def defaultSourceWeights : String → Option ℚ := fun s =>
  if s = "anilist" then some (25/100)
  else if s = "myanimelist" then some (20/100)
  else if s = "kitsu" then some (15/100)
  else if s = "animethemes" then some (10/100)
  else if s = "consumet" then some (8/100)
  else if s = "jikan" then some (12/100)
  else if s = "tmdb" then some (5/100)
  else if s = "trackt" then some (5/100)
  else none

/-- JavaScript `toLowerCase`, modelled character by character (this is
what `String.toLower` does, stated over the character list). -/
def strLower (s : String) : String := String.mk (s.data.map Char.toLower)

/-- Splitting of a character list at whitespace characters, keeping empty
tokens (the behavior of splitting on single whitespace occurrences). -/
def splitWs : List Char → List Char → List String
  | [], cur => [String.mk cur.reverse]
  | c :: rest, cur =>
    if c.isWhitespace then String.mk cur.reverse :: splitWs rest []
    else splitWs rest (c :: cur)

/-- Weight lookup used by `calculateWeightedAverage`:
`this.config.weights[anime.source.toLowerCase()] || 0.1`. -/
def sourceWeightOf (w : String → Option ℚ) (source : String) : ℚ :=
  match w (strLower source) with
  | some v => if v = 0 then 1/10 else v
  | none => 1/10

/-- Stop words removed by `generateAnimeKey`. -/
def stopWords : List String :=
  ["the", "a", "an", "wo", "ga", "no", "ni", "de", "to"]

/-- JavaScript regex word character class `\w`. -/
def isWordChar (c : Char) : Bool := c.isAlphanum || c = '_'

/-- Title normalization inside `generateAnimeKey`: lowercase, drop
characters that are neither word characters nor whitespace, remove
whole stop-word tokens, collapse runs of whitespace and trim.  On a
string of word characters and whitespace, removing regex-bounded
stop words and then collapsing whitespace is exactly: tokenize on
whitespace, drop empty and stop-word tokens, re-join with one space. -/
def normalizeTitle (s : String) : String :=
  let filtered := ((strLower s).data).filter
    (fun c => isWordChar c || c.isWhitespace)
  let toks := (splitWs filtered []).filter
    (fun t => !t.isEmpty && !(stopWords.contains t))
  String.intercalate " " toks

/-- Stringification of the `year`/`episodes` key components, including the
JavaScript `|| "unknown"` fallback on falsy values. -/
def numKeyPart (q : Option ℚ) : String :=
  match q with
  | some v => if v = 0 then "unknown" else toString v
  | none => "unknown"

/-- MergeKey (`generateAnimeKey` in `aggregator.ts`). -/
def generateAnimeKey (anime : AnimeData) : String :=
  let title := jsOrStr anime.title.english
    (jsOrStr anime.title.romaji (jsOrStr anime.title.common ""))
  normalizeTitle title ++ "-" ++
    numKeyPart (anime.startDate.bind (fun d => d.year)) ++ "-" ++
    numKeyPart anime.episodes

/-- Stable descending sort by a rational key; models the stable
JavaScript `Array.prototype.sort` with comparator `keyOf b - keyOf a`. -/
def sortByDesc {α : Type} (keyOf : α → ℚ) (l : List α) : List α :=
  List.insertionSort (fun a b => keyOf b ≤ keyOf a) l

/-- First truthy value of a selected string field scanning the group in
confidence order (`selectBestValue` in `aggregator.ts`). -/
def selectBestValue (animeList : List AnimeData)
    (sel : AnimeData → Option String) : Option String :=
  animeList.findSome? (fun a =>
    match sel a with
    | some s => if s.isEmpty then none else some s
    | none => none)

/-- JavaScript truthiness guard of the `calculateWeightedAverage` loop
(`if (anime.averageScore && anime.confidence)`): a record contributes iff
both its score and its confidence are truthy. -/
def contributesScore (a : AnimeData) : Bool :=
  truthy a.averageScore && truthy a.confidence

/-- Weight factor of one contributor in `calculateWeightedAverage`:
`confidence * (configWeight || 0.1)`. -/
def weightFactor (w : String → Option ℚ) (a : AnimeData) : ℚ :=
  a.confidence.getD 0 * sourceWeightOf w a.source

/-- One step of the `calculateWeightedAverage` accumulation: the
contributing record adds `averageScore * weightFactor` to the score total
and `weightFactor` to the weight total. -/
def weightedStep (w : String → Option ℚ) (acc : ℚ × ℚ) (anime : AnimeData) :
    ℚ × ℚ :=
  if contributesScore anime then
    (acc.1 + anime.averageScore.getD 0 * weightFactor w anime,
     acc.2 + weightFactor w anime)
  else acc

/-- Weighted average score of a merge group
(`calculateWeightedAverage` in `aggregator.ts`). -/
def calculateWeightedAverage (w : String → Option ℚ)
    (animeList : List AnimeData) : Option ℚ :=
  let totals := animeList.foldl (weightedStep w) (0, 0)
  if totals.2 > 0 then some (totals.1 / totals.2) else none

/-- Insertion into a JavaScript `Set` materialized as a list keeping
first-occurrence order. -/
def setAdd (acc : List String) (s : String) : List String :=
  if s ∈ acc then acc else acc ++ [s]

/-- Union of string arrays via a JavaScript `Set`
(`mergeArrays` in `aggregator.ts`): exact-string deduplication,
first occurrence kept. -/
def mergeArrays (arrays : List (List String)) : List String :=
  arrays.foldl (fun acc arr => arr.foldl setAdd acc) []

/-- JavaScript `Math.max(...animeList.map((anime) => anime.confidence || 0))`.
The function is only invoked on groups of at least two records, so the
empty case (minus infinity in JavaScript) is arbitrary here. -/
def baseConfidence : List AnimeData → ℚ
  | [] => 0
  | a :: rest => rest.foldl (fun m b => max m (confOr0 b)) (confOr0 a)

/-- Combined confidence of a merge group
(`calculateCombinedConfidence` in `aggregator.ts`). -/
def calculateCombinedConfidence (animeList : List AnimeData) : ℚ :=
  let sourceBonus := min (2/10) (((animeList.length : ℚ) - 1) * (1/10))
  min 1 (baseConfidence animeList + sourceBonus)

/-- Confidence merge of a group of records
(`mergeAnimeData` in `aggregator.ts`).  The group is sorted by
confidence descending (stable); the spread `...primary` copies every
other field from the highest-confidence record.  The empty-group branch
is unreachable (the grouping map only holds nonempty lists; JavaScript
would crash there). -/
def mergeAnimeData (w : String → Option ℚ) (animeList : List AnimeData) :
    AnimeData :=
  let sorted := sortByDesc confOr0 animeList
  match sorted with
  | [] =>
    { id := "", sourceId := "", source := "",
      title := ⟨none, none, none, none⟩, description := none,
      averageScore := none, episodes := none, startDate := none,
      genres := [], tags := [], demographics := none, themes := none,
      studios := none, producers := none, confidence := none }
  | primary :: _ =>
    { primary with
      title := ⟨selectBestValue sorted (fun a => a.title.english),
                selectBestValue sorted (fun a => a.title.romaji),
                selectBestValue sorted (fun a => a.title.native),
                selectBestValue sorted (fun a => a.title.common)⟩
      description := selectBestValue sorted (fun a => a.description)
      averageScore := calculateWeightedAverage w sorted
      genres := mergeArrays (sorted.map (fun a => a.genres))
      tags := mergeArrays (sorted.map (fun a => a.tags))
      studios := some (mergeArrays (sorted.map (fun a => a.studios.getD [])))
      confidence := some (calculateCombinedConfidence sorted) }

/-- Push a record onto the list stored under its MergeKey in the grouping
map, preserving JavaScript `Map` key-insertion order. -/
def mapPush (k : String) (a : AnimeData) :
    List (String × List AnimeData) → List (String × List AnimeData)
  | [] => [(k, [a])]
  | (k2, l) :: rest =>
    if k2 = k then (k2, l ++ [a]) :: rest else (k2, l) :: mapPush k a rest

/-- Filing of one response into the grouping map: every record of the
response is pushed under its MergeKey. -/
def groupStep (m : List (String × List AnimeData))
    (p : String × List AnimeData) : List (String × List AnimeData) :=
  p.2.foldl (fun m2 a => mapPush (generateAnimeKey a) a m2) m

/-- Grouping phase of `mergeSearchResults`: every record of every
response is filed under its MergeKey. -/
def groupByKey (responses : List (String × List AnimeData)) :
    List (String × List AnimeData) :=
  responses.foldl groupStep []

/-- Per-group consolidation in `mergeSearchResults`: singleton groups are
passed through unchanged, larger groups go through the confidence merge. -/
def mergeGroup (w : String → Option ℚ) (group : List AnimeData) : AnimeData :=
  match group with
  | [a] => a
  | _ => mergeAnimeData w group

/-- Merge phase of the aggregator search
(`mergeSearchResults` in `aggregator.ts`): group by MergeKey,
consolidate each group, sort descending by `averageScore * confidence`
(missing values treated as 0). -/
def mergeSearchResults (w : String → Option ℚ)
    (responses : List (String × List AnimeData)) : List AnimeData :=
  sortByDesc (fun a => scoreOr0 a * confOr0 a)
    ((groupByKey responses).map (fun p => mergeGroup w p.2))

/-- Aggregator search after the parallel fan-out has resolved
(`searchAnime` in `aggregator.ts`): each adapter outcome is either a
result list or a thrown error / timeout; the catch block converts a
failure into an empty result list for that adapter, and the merged
results are returned. -/
def searchAnime (w : String → Option ℚ)
    (outcomes : List (String × Except Unit (List AnimeData))) :
    List AnimeData :=
  mergeSearchResults w (outcomes.map (fun p =>
    (p.1,
      match p.2 with
      | Except.ok results => results
      | Except.error _ => [])))

/-! ## Cache (`AnimeCache` in `src/lib/cache.ts`) -/

/-- Cache entry (`CacheItem` in `cache.ts`); `timestamp` is the insertion
time and `ttl` the time to live, both in integer milliseconds
(JavaScript `Date.now()` yields integers). -/
structure CacheItem (α : Type) where
  data : α
  timestamp : ℤ
  ttl : ℤ
deriving DecidableEq, Repr

/-- Store of one cache (a JavaScript `Map` keyed by strings, modelled as
an insertion-ordered association list). -/
def Store (α : Type) : Type := List (String × CacheItem α)

/-- Lookup in the association-list map. -/
def mapGet {α : Type} (store : Store α) (key : String) : Option (CacheItem α) :=
  match store with
  | [] => none
  | (k, it) :: rest => if k = key then some it else mapGet rest key

/-- Deletion from the association-list map. -/
def mapDelete {α : Type} (key : String) (store : Store α) : Store α :=
  match store with
  | [] => []
  | (k, it) :: rest =>
    if k = key then rest else (k, it) :: mapDelete key rest

/-- Insertion into the association-list map: replace in place when the
key exists, append otherwise (JavaScript `Map.set`). -/
def mapSet {α : Type} (key : String) (item : CacheItem α) (store : Store α) :
    Store α :=
  match store with
  | [] => [(key, item)]
  | (k, it) :: rest =>
    if k = key then (k, item) :: rest else (k, it) :: mapSet key item rest

/-- Expiry test (`isExpired` in `cache.ts`). -/
def isExpired {α : Type} (now : ℤ) (item : CacheItem α) : Bool :=
  now - item.timestamp > item.ttl

/-- Cache read (`getSearchResults` / `getAnimeDetails` /
`getRecommendations` in `cache.ts`, which share this shape): returns the
looked-up value and the store after the read (an expired entry is
deleted, not merely ignored). -/
def getStore {α : Type} (store : Store α) (key : String) (now : ℤ) :
    Option α × Store α :=
  match mapGet store key with
  | none => (none, store)
  | some item =>
    if isExpired now item then (none, mapDelete key store)
    else (some item.data, store)

/-- Maintenance pass run at the start of every `set`
(`cleanup` in `cache.ts`): delete all expired entries; then, if the store
still holds more than `maxSize` entries, delete the oldest
(by insertion timestamp) until exactly `maxSize` remain.  The size test
is on the store before the upcoming insertion. -/
def cleanup {α : Type} (now : ℤ) (maxSize : ℕ) (store : Store α) : Store α :=
  let alive := store.filter (fun p => !isExpired now p.2)
  if maxSize < alive.length then
    let entries := List.insertionSort
      (fun p q : String × CacheItem α => p.2.timestamp ≤ q.2.timestamp) alive
    let toRemove := entries.take (alive.length - maxSize)
    toRemove.foldl (fun acc p => mapDelete p.1 acc) alive
  else alive

/-- Cache write (`setSearchResults` / `setAnimeDetails` /
`setRecommendations` in `cache.ts`, which share this shape): run
`cleanup`, then insert the new entry stamped with the current time. -/
def setStore {α : Type} (now : ℤ) (ttl : ℤ) (maxSize : ℕ) (key : String)
    (value : α) (store : Store α) : Store α :=
  mapSet key ⟨value, now, ttl⟩ (cleanup now maxSize store)

/-- Size cap of every cache store (`maxCacheSize` in `cache.ts`). -/
def maxCacheSize : ℕ := 1000

/-- TTL of the search store in milliseconds (`searchTTL`). -/
def searchTTL : ℤ := 1000 * 60 * 15

/-! ## Rate limiter (`MALRateLimiter` in `myanimelist.ts`) -/

/-- Window capacity of the MyAnimeList rate limiter. -/
def malMaxRequests : ℕ := 3

/-- Window duration of the MyAnimeList rate limiter in milliseconds. -/
def malWindowMs : ℤ := 1000

/-- Pruning of the recorded timestamps
(`cleanOldRequests` in `myanimelist.ts`): keep a timestamp iff it is
strictly newer than `now - windowMs`. -/
def cleanOldRequests (now : ℤ) (requests : List ℤ) : List ℤ :=
  requests.filter (fun t => now - malWindowMs < t)

/-- Gate test (`canMakeRequest` in `myanimelist.ts`). -/
def canMakeRequest (now : ℤ) (requests : List ℤ) : Bool :=
  (cleanOldRequests now requests).length < malMaxRequests

/-- Advised delay (`getWaitTime` in `myanimelist.ts`): 0 when under the
limit, otherwise `max 0 (windowMs - (now - requests[0]))` over the pruned
timestamp list. -/
def getWaitTime (now : ℤ) (requests : List ℤ) : ℤ :=
  let pruned := cleanOldRequests now requests
  if pruned.length < malMaxRequests then 0
  else max 0 (malWindowMs - (now - pruned.headD 0))

/-! ## Recommendation engine (`RecommendationEngine` in
`src/lib/recommendation-engine.ts`) -/

/-- Similarity factor weights (`SimilarityWeights`); the engine
constructor merges a partial override into the defaults, so functions
below take the merged record. -/
structure SimilarityWeights where
  genre : ℚ
  studio : ℚ
  score : ℚ
  year : ℚ
  episodes : ℚ
  demographic : ℚ
  tags : ℚ
deriving DecidableEq, Repr

/-- Default similarity weights (`defaultWeights`). -/
def defaultSimWeights : SimilarityWeights :=
  ⟨30/100, 15/100, 20/100, 10/100, 5/100, 10/100, 10/100⟩

/-- Explainable recommendation reason (`RecommendationReason`). -/
structure Reason where
  kind : String
  value : String
  weight : ℚ
deriving DecidableEq, Repr

/-- Scored recommendation (`RecommendationResult`). -/
structure RecommendationResult where
  anime : AnimeData
  score : ℚ
  reasons : List Reason
deriving DecidableEq, Repr

/-- Deduplicated lowercase copy of a string list (a JavaScript `Set`
built from the lowercased array). -/
def lowerSet (l : List String) : List String :=
  (l.map strLower).foldl setAdd []

/-- Jaccard similarity over lowercased genre/tag sets
(`calculateGenreSimilarity` / `calculateTagSimilarity`). -/
def jaccardLower (l1 l2 : List String) : ℚ :=
  if l1.isEmpty || l2.isEmpty then 0
  else
    let s1 := lowerSet l1
    let s2 := lowerSet l2
    let inter := s1.filter (fun x => s2.contains x)
    let uni := (s1 ++ s2).foldl setAdd []
    (inter.length : ℚ) / (uni.length : ℚ)

/-- Binary studio overlap (`calculateStudioSimilarity`). -/
def calculateStudioSimilarity (studios1 studios2 : List String) : ℚ :=
  if studios1.isEmpty || studios2.isEmpty then 0
  else
    let s1 := lowerSet studios1
    let s2 := lowerSet studios2
    if 0 < s1.length && 0 < s2.length && s1.any (fun s => s2.contains s)
    then 1 else 0

/-- Score proximity (`calculateScoreSimilarity`); a missing or zero score
on either side yields 0. -/
def calculateScoreSimilarity (score1 score2 : Option ℚ) : ℚ :=
  if !truthy score1 || !truthy score2 then 0
  else max 0 (1 - |score1.getD 0 - score2.getD 0| / 100)

/-- Year proximity (`calculateYearSimilarity`). -/
def calculateYearSimilarity (year1 year2 : Option ℚ) : ℚ :=
  if !truthy year1 || !truthy year2 then 0
  else max 0 (1 - |year1.getD 0 - year2.getD 0| / 10)

/-- Episode-count similarity (`calculateEpisodeSimilarity`). -/
def calculateEpisodeSimilarity (episodes1 episodes2 : Option ℚ) : ℚ :=
  if !truthy episodes1 || !truthy episodes2 then 0
  else
    let e1 := episodes1.getD 0
    let e2 := episodes2.getD 0
    min e1 e2 / max e1 e2

/-- Binary demographic overlap (`calculateDemographicSimilarity`). -/
def calculateDemographicSimilarity (demo1 demo2 : List String) : ℚ :=
  if demo1.isEmpty || demo2.isEmpty then 0
  else
    let s1 := lowerSet demo1
    let s2 := lowerSet demo2
    if s1.any (fun d => s2.contains d) then 1 else 0

/-- Per-factor similarity breakdown (`calculateSimilarity`). -/
structure SimBreakdown where
  genre : ℚ
  studio : ℚ
  score : ℚ
  year : ℚ
  episodes : ℚ
  demographic : ℚ
  tags : ℚ
deriving DecidableEq, Repr

/-- Pairwise similarity breakdown of two records
(`calculateSimilarity` in `recommendation-engine.ts`). -/
def simBreakdown (a1 a2 : AnimeData) : SimBreakdown where
  genre := jaccardLower a1.genres a2.genres
  studio := calculateStudioSimilarity (a1.studios.getD []) (a2.studios.getD [])
  score := calculateScoreSimilarity a1.averageScore a2.averageScore
  year := calculateYearSimilarity (a1.startDate.bind (fun d => d.year))
    (a2.startDate.bind (fun d => d.year))
  episodes := calculateEpisodeSimilarity a1.episodes a2.episodes
  demographic := calculateDemographicSimilarity (a1.demographics.getD [])
    (a2.demographics.getD [])
  tags := jaccardLower a1.tags a2.tags

/-- Weighted total similarity score
(the `totalScore` reduction in `calculateSimilarity`). -/
def similarityTotal (w : SimilarityWeights) (a1 a2 : AnimeData) : ℚ :=
  let b := simBreakdown a1 a2
  b.genre * w.genre + b.studio * w.studio + b.score * w.score +
    b.year * w.year + b.episodes * w.episodes +
    b.demographic * w.demographic + b.tags * w.tags

/-- User hard-filter preferences (`UserPreferences`); the nested
`preferredYearRange` object is flattened into `yearMin` / `yearMax`. -/
structure UserPreferences where
  favoriteGenres : List String
  dislikedGenres : List String
  preferredDemographics : List String
  minScore : ℚ
  maxEpisodes : Option ℚ
  preferredStudios : List String
  yearMin : Option ℚ
  yearMax : Option ℚ
deriving DecidableEq, Repr

/-- Hard filters (`passesUserFilters` in `recommendation-engine.ts`).
Every guard follows JavaScript truthiness: a zero or missing
`averageScore` skips the minimum-score check, a missing or zero year or
bound skips the year checks, and so on. -/
def passesUserFilters (anime : AnimeData) (prefs : UserPreferences) : Bool :=
  if truthy anime.averageScore &&
      decide (anime.averageScore.getD 0 < prefs.minScore) then false
  else if truthy prefs.maxEpisodes && truthy anime.episodes &&
      decide (prefs.maxEpisodes.getD 0 < anime.episodes.getD 0) then false
  else
    let yr := anime.startDate.bind (fun d => d.year)
    if truthy yr && truthy prefs.yearMin &&
        decide (yr.getD 0 < prefs.yearMin.getD 0) then false
    else if truthy yr && truthy prefs.yearMax &&
        decide (prefs.yearMax.getD 0 < yr.getD 0) then false
    else if (anime.genres.map strLower).any
        (fun g => (prefs.dislikedGenres.map strLower).contains g)
    then false
    else true

/-- Preference-only score with its fixed internal weighting
(`calculatePreferenceScore` in `recommendation-engine.ts`). -/
def calculatePreferenceScore (anime : AnimeData) (prefs : UserPreferences) :
    ℚ :=
  let animeGenres := anime.genres.map strLower
  let favoriteGenres := prefs.favoriteGenres.map strLower
  let genreMatches :=
    (animeGenres.filter (fun g => favoriteGenres.contains g)).length
  let genrePart :=
    ((genreMatches : ℚ) / (max prefs.favoriteGenres.length 1 : ℕ)) * (40/100)
  let studioPart :=
    if ((anime.studios.getD []).map strLower).any
        (fun s => (prefs.preferredStudios.map strLower).contains s)
    then 20/100 else 0
  let demoPart :=
    if ((anime.demographics.getD []).map strLower).any
        (fun d => (prefs.preferredDemographics.map strLower).contains d)
    then 15/100 else 0
  let scorePart :=
    if truthy anime.averageScore
    then anime.averageScore.getD 0 / 100 * (25/100) else 0
  genrePart + studioPart + demoPart + scorePart

/-- Pairwise explanation reasons (`generateReasons` in
`recommendation-engine.ts`): one reason per shared genre, one per shared
studio (case-insensitive comparison, casing of the first record kept),
and a year-proximity reason within three years; sorted by weight
descending. -/
def generateReasons (w : SimilarityWeights) (a1 a2 : AnimeData) :
    List Reason :=
  let commonGenres := a1.genres.filter
    (fun g1 => a2.genres.any (fun g2 => strLower g1 = strLower g2))
  let genreReasons := commonGenres.map
    (fun g => Reason.mk "genre" g (w.genre * (1 / (commonGenres.length : ℚ))))
  let commonStudios := (a1.studios.getD []).filter
    (fun s1 => (a2.studios.getD []).any (fun s2 => strLower s1 = strLower s2))
  let studioReasons := commonStudios.map
    (fun s => Reason.mk "studio" s w.studio)
  let y1 := a1.startDate.bind (fun d => d.year)
  let y2 := a2.startDate.bind (fun d => d.year)
  let yearReasons :=
    if truthy y1 && truthy y2 then
      let yearDiff := |y1.getD 0 - y2.getD 0|
      if yearDiff ≤ 3 then
        [Reason.mk "year" ("Both from around " ++ toString (y2.getD 0))
          (w.year * (1 - yearDiff / 10))]
      else []
    else []
  sortByDesc (fun r => r.weight) (genreReasons ++ studioReasons ++ yearReasons)

/-- Preference-only explanation reasons (`generatePreferenceReasons`). -/
def generatePreferenceReasons (anime : AnimeData) (prefs : UserPreferences) :
    List Reason :=
  let favoriteGenres := prefs.favoriteGenres.map strLower
  ((anime.genres.map strLower).filter
      (fun g => favoriteGenres.contains g)).map
    (fun g => Reason.mk "genre" g ((40/100) / (prefs.favoriteGenres.length : ℚ)))

/-- Content-based recommendations
(`getContentBasedRecommendations` in `recommendation-engine.ts`):
skip the reference itself by id, apply the optional user hard-filters,
score the survivors, sort by score descending, return the top 20. -/
def getContentBasedRecommendations (w : SimilarityWeights)
    (sourceAnime : AnimeData) (candidateAnime : List AnimeData)
    (userPreferences : Option UserPreferences) : List RecommendationResult :=
  let recommendations := candidateAnime.filterMap (fun candidate =>
    if candidate.id = sourceAnime.id then none
    else if (match userPreferences with
             | some prefs => !passesUserFilters candidate prefs
             | none => false) then none
    else some (RecommendationResult.mk candidate
      (similarityTotal w sourceAnime candidate)
      (generateReasons w sourceAnime candidate)))
  (sortByDesc (fun r => r.score) recommendations).take 20

/-- Preference-only recommendations
(`getPreferenceBasedRecommendations` in `recommendation-engine.ts`). -/
def getPreferenceBasedRecommendations (candidateAnime : List AnimeData)
    (userPreferences : UserPreferences) : List RecommendationResult :=
  let recommendations := candidateAnime.filterMap (fun candidate =>
    if passesUserFilters candidate userPreferences then
      some (RecommendationResult.mk candidate
        (calculatePreferenceScore candidate userPreferences)
        (generatePreferenceReasons candidate userPreferences))
    else none)
  (sortByDesc (fun r => r.score) recommendations).take 20

/-! ## Definitions written from the specification text, for comparison
with the code (refinement checks), and concrete sample inputs. -/

/-- Specification-side weighted average, following the words of the spec:
"weighted average over contributors that have a score, weight =
contributor.confidence × sourceWeight(contributor.source); result
undefined if no contributor has a score".  "Has a score" is read as the
`averageScore` field being present (any value, including 0). -/
def calculateWeightedAverageSpec (w : String → Option ℚ)
    (animeList : List AnimeData) : Option ℚ :=
  let contributors := animeList.filter (fun a => a.averageScore.isSome)
  if contributors.isEmpty then none
  else
    let wt := fun (a : AnimeData) => a.confidence.getD 0 * sourceWeightOf w a.source
    some (((contributors.map (fun a => a.averageScore.getD 0 * wt a)).sum) /
      ((contributors.map wt).sum))

/-- Specification-side case-insensitive set insertion: keep the casing of
the first occurrence, drop later case-variants. -/
def setAddCI (acc : List String) (s : String) : List String :=
  if acc.any (fun t => strLower t = strLower s) then acc else acc ++ [s]

/-- Specification-side union of set-valued fields, following the words of
the spec: "union across all contributors, deduplicated
case-insensitively, original casing of first occurrence kept". -/
def mergeArraysSpec (arrays : List (List String)) : List String :=
  arrays.foldl (fun acc arr => arr.foldl setAddCI acc) []

/-- Range predicate on the score and confidence fields of a record:
`averageScore` (when present) lies in `[0, 100]` and `confidence`
(when present) lies in `[0, 1]`. -/
def scoreConfInRange (a : AnimeData) : Bool :=
  (a.averageScore.all (fun s => decide (0 ≤ s) && decide (s ≤ 100))) &&
    (a.confidence.all (fun c => decide (0 ≤ c) && decide (c ≤ 1)))

/-- Record skeleton for the concrete sample inputs below. -/
def baseRec (id source : String) : AnimeData :=
  { id := id, sourceId := id, source := source,
    title := ⟨some ("Title " ++ id), none, none, none⟩,
    description := none, averageScore := none, episodes := none,
    startDate := none, genres := [], tags := [], demographics := none,
    themes := none, studios := none, producers := none, confidence := none }

/-- Contributor A of the spec merge example: confidence 0.9, weight 0.35,
score 85. -/
def recA : AnimeData :=
  { baseRec "a1" "A" with averageScore := some 85, confidence := some (9/10) }

/-- Contributor B of the spec merge example: confidence 0.7, weight 0.3,
score 78. -/
def recB : AnimeData :=
  { baseRec "b1" "B" with averageScore := some 78, confidence := some (7/10) }

/-- Weight configuration of the spec merge example. -/
def exampleWeights : String → Option ℚ := fun s =>
  if s = "a" then some (35/100)
  else if s = "b" then some (30/100)
  else none

/-- Contributor whose score is present but equal to 0. -/
def recZeroScore : AnimeData :=
  { baseRec "z1" "anilist" with averageScore := some 0, confidence := some 1 }

/-- Contributor with score 80. -/
def recEighty : AnimeData :=
  { baseRec "e1" "myanimelist" with
    averageScore := some 80, confidence := some 1 }

/-- Adapter-supplied record with out-of-range score and confidence. -/
def recOutOfRange : AnimeData :=
  { baseRec "o1" "anilist" with
    averageScore := some 200, confidence := some 2 }

/-- Higher-confidence contributor with capitalized genre and a
demographics list. -/
def recUpper : AnimeData :=
  { baseRec "u1" "anilist" with
    genres := ["Action"]
    demographics := some ["Shounen"]
    confidence := some (9/10) }

/-- Lower-confidence contributor whose genre differs only in case and
whose demographics differ. -/
def recLower : AnimeData :=
  { baseRec "l1" "myanimelist" with
    genres := ["action"]
    demographics := some ["Seinen"]
    confidence := some (5/10) }

/-- Cache store after inserting key k1 at time 0 (cap 2, ttl 100). -/
def cacheS1 : Store ℕ := setStore 0 100 2 "k1" 1 []

/-- Cache store after inserting k1 and k2 (cap 2). -/
def cacheS2 : Store ℕ := setStore 1 100 2 "k2" 2 cacheS1

/-- Cache store after inserting k1, k2 and k3 (cap 2). -/
def cacheS3 : Store ℕ := setStore 2 100 2 "k3" 3 cacheS2

/-- Cache store after a fourth insertion k4 (cap 2). -/
def cacheS4 : Store ℕ := setStore 3 100 2 "k4" 4 cacheS3

/-- Reference record for the recommendation witnesses. -/
def srcRef : AnimeData :=
  { baseRec "s1" "anilist" with
    genres := ["Action"] }

/-- Candidate record distinct from the reference. -/
def candX : AnimeData :=
  { baseRec "x1" "anilist" with
    genres := ["Action"]
    averageScore := some 75
    confidence := some (8/10) }

/-- Candidate with a present-but-zero score. -/
def zeroCand : AnimeData :=
  { baseRec "zc1" "anilist" with
    genres := ["Action"]
    averageScore := some 0 }

/-- Preferences demanding a minimum score of 70. -/
def prefsMin70 : UserPreferences :=
  ⟨["Action"], [], [], 70, none, [], none, none⟩

/-- In-range adapter record for the aggregation range witness. -/
def recInRange : AnimeData :=
  { baseRec "ir1" "anilist" with
    averageScore := some 85
    confidence := some 1 }

/-- Claim C7 (confirmed): cache `get(key)` reports a miss iff the key is
absent or `now - insertedAt > ttl`; an expired entry is deleted from the
store rather than merely ignored; otherwise the stored value is returned
and the store is unchanged.  In particular an entry stored with
`ttl = 0` is a miss on any strictly later `get`. -/
theorem getStore_semantics {α : Type} (store : Store α) (key : String) (now : ℤ) :
    ((getStore store key now).1 = none ↔
      mapGet store key = none ∨
        ∃ item, mapGet store key = some item ∧ item.ttl < now - item.timestamp) ∧
    (∀ item, mapGet store key = some item → item.ttl < now - item.timestamp →
      getStore store key now = (none, mapDelete key store)) ∧
    (∀ item, mapGet store key = some item → ¬ item.ttl < now - item.timestamp →
      getStore store key now = (some item.data, store)) ∧
    (∀ item, mapGet store key = some item → item.ttl = 0 → item.timestamp < now →
      (getStore store key now).1 = none) := by
  refine ⟨?_, ?_, ?_, ?_⟩
  · cases h : mapGet store key with
    | none => simp [getStore, h]
    | some item =>
      by_cases hexp : item.ttl < now - item.timestamp
      · simp [getStore, h, isExpired, hexp]
      · simp [getStore, h, isExpired, hexp]
  · intro item h hexp
    simp [getStore, h, isExpired, hexp]
  · intro item h hexp
    simp [getStore, h, isExpired, hexp]
  · intro item h httl hts
    have hexp : item.ttl < now - item.timestamp := by omega
    simp [getStore, h, isExpired, hexp]

/-- Witness for C7: a concrete store with a `ttl = 0` entry inserted at
time 5 misses on a `get` at time 6. -/
theorem getStore_semantics_witness :
    (getStore [("k", (⟨7, 5, 0⟩ : CacheItem ℕ))] "k" 6).1 = none :=
  (getStore_semantics [("k", (⟨7, 5, 0⟩ : CacheItem ℕ))] "k" 6).2.2.2
    ⟨7, 5, 0⟩ (by decide) rfl (by decide)

/-- Claim C8 (confirmed): for chronologically recorded timestamps,
`canMakeRequest` is true iff fewer than `maxRequests` timestamps remain
after pruning entries older than the window, `getWaitTime` is 0 whenever
`canMakeRequest` holds and otherwise equals
`windowMs - (now - oldestRemaining)`; with `maxRequests = 3` and
`windowMs = 1000`, a 4th call issued immediately after 3 recorded calls
sees a positive wait time, and once 1000 ms elapse from the first call
`canMakeRequest` is true again. -/
theorem rateLimiter_semantics (now : ℤ) (requests : List ℤ)
    (hchrono : requests.Sorted (fun a b => a ≤ b)) :
    (canMakeRequest now requests = true ↔
      (cleanOldRequests now requests).length < malMaxRequests) ∧
    (canMakeRequest now requests = true → getWaitTime now requests = 0) ∧
    (canMakeRequest now requests = false →
      ∃ oldest rest, cleanOldRequests now requests = oldest :: rest ∧
        (∀ t ∈ cleanOldRequests now requests, oldest ≤ t) ∧
        getWaitTime now requests = malWindowMs - (now - oldest)) ∧
    (getWaitTime 0 [0, 0, 0] = 1000 ∧ canMakeRequest 1000 [0, 0, 0] = true) := by
  refine ⟨by simp [canMakeRequest], ?_, ?_, by decide, by decide⟩
  · intro h
    have hlt : (cleanOldRequests now requests).length < malMaxRequests := by
      simpa [canMakeRequest] using h
    simp [getWaitTime, hlt]
  · intro h
    have hge : ¬ (cleanOldRequests now requests).length < malMaxRequests := by
      simpa [canMakeRequest] using h
    have hne : cleanOldRequests now requests ≠ [] := by
      intro hnil
      rw [hnil] at hge
      simp [malMaxRequests] at hge
    obtain ⟨oldest, rest, heq⟩ := List.exists_cons_of_ne_nil hne
    have hsorted : (cleanOldRequests now requests).Sorted (fun a b => a ≤ b) :=
      hchrono.filter _
    refine ⟨oldest, rest, heq, ?_, ?_⟩
    · intro t ht
      rw [heq] at ht hsorted
      rcases List.mem_cons.mp ht with h1 | h1
      · exact le_of_eq h1.symm
      · exact (List.sorted_cons.mp hsorted).1 t h1
    · have hmem : oldest ∈ cleanOldRequests now requests := by
        rw [heq]; exact List.mem_cons_self _ _
      have hbig : now - malWindowMs < oldest := by
        have := List.of_mem_filter hmem
        simpa using this
      have hpos : 0 ≤ malWindowMs - (now - oldest) := by omega
      have hge2 : ¬ (oldest :: rest).length < malMaxRequests := by
        rw [heq] at hge; exact hge
      simp only [getWaitTime, heq]
      rw [if_neg hge2]
      simp [max_eq_right hpos]

/-- Witness for C8: the concrete scenario of the claim, with all three
requests recorded at time 0. -/
theorem rateLimiter_semantics_witness :
    getWaitTime 0 [0, 0, 0] = 1000 ∧ canMakeRequest 1000 [0, 0, 0] = true :=
  ((rateLimiter_semantics 0 [0, 0, 0] (by decide)).2.2.2)

/-- Claim C9 (confirmed): no record returned by content-based
recommendations has the id of the reference record; the reference never
appears in its own recommendation results. -/
theorem contentBased_excludes_reference (w : SimilarityWeights)
    (sourceAnime : AnimeData) (candidateAnime : List AnimeData)
    (userPreferences : Option UserPreferences) (r : RecommendationResult)
    (hr : r ∈ getContentBasedRecommendations w sourceAnime candidateAnime
      userPreferences) :
    r.anime.id ≠ sourceAnime.id := by
  unfold getContentBasedRecommendations at hr
  have h1 := List.mem_of_mem_take hr
  rw [sortByDesc, List.mem_insertionSort] at h1
  obtain ⟨c, hc, hf⟩ := List.mem_filterMap.mp h1
  by_cases hid : c.id = sourceAnime.id
  · rw [if_pos hid] at hf
    exact absurd hf (by simp)
  · rw [if_neg hid] at hf
    rcases userPreferences with _ | prefs
    · rw [if_neg (by simp)] at hf
      obtain rfl := Option.some_injective _ hf
      exact hid
    · cases hpf : passesUserFilters c prefs with
      | false =>
        rw [if_pos (by simp [hpf])] at hf
        simp at hf
      | true =>
        rw [if_neg (by simp [hpf])] at hf
        obtain rfl := Option.some_injective _ hf
        exact hid

/-- Witness for C9: a concrete candidate distinct from the reference
appears in the results and indeed has a different id. -/
theorem contentBased_excludes_reference_witness :
    (RecommendationResult.mk candX (similarityTotal defaultSimWeights srcRef candX)
      (generateReasons defaultSimWeights srcRef candX)).anime.id ≠ srcRef.id := by
  refine contentBased_excludes_reference defaultSimWeights srcRef [candX] none _ ?_
  have hid : (candX.id = srcRef.id) = False := by simp [candX, srcRef, baseRec]
  simp only [getContentBasedRecommendations, List.filterMap, hid]
  simp [sortByDesc, List.insertionSort, List.orderedInsert]

/-- Claim C10 (confirmed): a candidate whose `averageScore` is present
but equal to 0 is never rejected by the minimum-score constraint — the
filter result does not depend on `minScore` at all — and when it passes
the remaining filters it appears in preference-filtered recommendation
results. -/
theorem zeroScore_not_rejected (candidate : AnimeData) (prefs : UserPreferences)
    (h0 : candidate.averageScore = some 0) (hmin : 0 < prefs.minScore) :
    (∀ m : ℚ, passesUserFilters candidate { prefs with minScore := m } =
      passesUserFilters candidate prefs) ∧
    (passesUserFilters candidate prefs = true →
      ∃ r ∈ getPreferenceBasedRecommendations [candidate] prefs,
        r.anime = candidate) := by
  constructor
  · intro m
    simp [passesUserFilters, h0, truthy]
  · intro hp
    refine ⟨RecommendationResult.mk candidate
      (calculatePreferenceScore candidate prefs)
      (generatePreferenceReasons candidate prefs), ?_, rfl⟩
    simp [getPreferenceBasedRecommendations, hp, sortByDesc,
      List.insertionSort, List.orderedInsert]

/-- Witness for C10: a concrete zero-score candidate passes a
`minScore = 70` filter and appears in the results. -/
theorem zeroScore_not_rejected_witness :
    ∃ r ∈ getPreferenceBasedRecommendations [zeroCand] prefsMin70,
      r.anime = zeroCand := by
  refine (zeroScore_not_rejected zeroCand prefsMin70 rfl (by norm_num [prefsMin70])).2 ?_
  norm_num +decide [passesUserFilters, truthy, zeroCand, prefsMin70, baseRec, strLower]

lemma foldl_max_spec : ∀ (rest : List AnimeData) (x : ℚ),
    (rest.foldl (fun m b => max m (confOr0 b)) x = x ∨
      ∃ b ∈ rest, rest.foldl (fun m b => max m (confOr0 b)) x = confOr0 b) ∧
    x ≤ rest.foldl (fun m b => max m (confOr0 b)) x ∧
    ∀ b ∈ rest, confOr0 b ≤ rest.foldl (fun m b => max m (confOr0 b)) x
  | [], x => ⟨Or.inl rfl, le_refl x, by simp⟩
  | b :: rest, x => by
    obtain ⟨h1, h2, h3⟩ := foldl_max_spec rest (max x (confOr0 b))
    rw [List.foldl_cons]
    refine ⟨?_, le_trans (le_max_left _ _) h2, ?_⟩
    · rcases h1 with h1 | ⟨c, hc, h1⟩
      · rcases max_choice x (confOr0 b) with h | h
        · exact Or.inl (h1.trans h)
        · exact Or.inr ⟨b, List.mem_cons_self _ _, h1.trans h⟩
      · exact Or.inr ⟨c, List.mem_cons_of_mem _ hc, h1⟩
    · intro c hc
      rcases List.mem_cons.mp hc with rfl | hc
      · exact le_trans (le_max_right _ _) h2
      · exact h3 c hc

lemma baseConfidence_isMax (l : List AnimeData) (hne : l ≠ []) :
    (∃ m ∈ l, baseConfidence l = confOr0 m) ∧
    ∀ a ∈ l, confOr0 a ≤ baseConfidence l := by
  match l, hne with
  | a :: rest, _ =>
    obtain ⟨h1, h2, h3⟩ := foldl_max_spec rest (confOr0 a)
    unfold baseConfidence
    constructor
    · rcases h1 with h1 | ⟨b, hb, h1⟩
      · exact ⟨a, List.mem_cons_self _ _, h1⟩
      · exact ⟨b, List.mem_cons_of_mem _ hb, h1⟩
    · intro b hb
      rcases List.mem_cons.mp hb with rfl | hb
      · exact h2
      · exact h3 b hb

/-- Claim C4 (confirmed): for a merge group of at least two records
whose confidences lie in the declared range (at most 1), the combined
confidence equals `min 1 (maxConfidence + min 0.2 (0.1 * (size - 1)))`
where `maxConfidence` is attained by a group member and dominates every
member, and consequently the merged confidence is at least every input
confidence. -/
theorem combinedConfidence_formula (l : List AnimeData) (h2 : 2 ≤ l.length)
    (hconf : ∀ a ∈ l, confOr0 a ≤ 1) :
    (∃ m ∈ l, calculateCombinedConfidence l =
        min 1 (confOr0 m + min (2/10) (((l.length : ℚ) - 1) * (1/10))) ∧
        ∀ b ∈ l, confOr0 b ≤ confOr0 m) ∧
    ∀ a ∈ l, confOr0 a ≤ calculateCombinedConfidence l := by
  have hne : l ≠ [] := by
    intro h; rw [h] at h2; simp at h2
  obtain ⟨⟨m, hm, hbase⟩, hmax⟩ := baseConfidence_isMax l hne
  have hbonus : 0 ≤ min (2/10 : ℚ) (((l.length : ℚ) - 1) * (1/10)) := by
    have : (2 : ℚ) ≤ (l.length : ℚ) := by exact_mod_cast h2
    have h10 : (0 : ℚ) ≤ ((l.length : ℚ) - 1) * (1/10) := by nlinarith
    exact le_min (by norm_num) h10
  constructor
  · refine ⟨m, hm, ?_, fun b hb => hbase ▸ hmax b hb⟩
    unfold calculateCombinedConfidence
    rw [hbase]
  · intro a ha
    unfold calculateCombinedConfidence
    refine le_min (hconf a ha) ?_
    have := hmax a ha
    linarith

/-- Witness for C4: the merged confidence of the two-record example
group dominates contributor A's confidence. -/
theorem combinedConfidence_formula_witness :
    confOr0 recA ≤ calculateCombinedConfidence [recA, recB] := by
  refine (combinedConfidence_formula [recA, recB] (by norm_num) ?_).2 recA
    (List.mem_cons_self _ _)
  intro a ha
  rcases List.mem_cons.mp ha with rfl | ha
  · norm_num [confOr0, recA, baseRec]
  · rcases List.mem_cons.mp ha with rfl | ha
    · norm_num [confOr0, recB, baseRec]
    · simp at ha

lemma foldl_weightedStep_eq (w : String → Option ℚ) :
    ∀ (l : List AnimeData) (p : ℚ × ℚ),
      l.foldl (weightedStep w) p =
        (p.1 + ((l.filter (fun a => contributesScore a)).map
            (fun a => a.averageScore.getD 0 * weightFactor w a)).sum,
         p.2 + ((l.filter (fun a => contributesScore a)).map
            (weightFactor w)).sum)
  | [], p => by simp
  | a :: l, p => by
    rw [List.foldl_cons, foldl_weightedStep_eq w l]
    cases h : contributesScore a with
    | false => simp [weightedStep, h]
    | true =>
      simp [weightedStep, h]
      constructor <;> ring

/-- Claim C5 (corrected, amended form): the merged `averageScore` is the
weighted average over the contributors whose score AND confidence are
both present and nonzero (JavaScript truthiness), weighted by
`confidence * (sourceWeight || 0.1)`, and is undefined when no such
contributor exists; the spec example (A: confidence .9, weight .35,
score 85; B: confidence .7, weight .3, score 78) merges to exactly
82.2. -/
theorem weightedAverage_amended (w : String → Option ℚ) (l : List AnimeData) :
    (calculateWeightedAverage w l =
      if 0 < ((l.filter (fun a => contributesScore a)).map (weightFactor w)).sum
      then some ((((l.filter (fun a => contributesScore a)).map
          (fun a => a.averageScore.getD 0 * weightFactor w a)).sum) /
        (((l.filter (fun a => contributesScore a)).map (weightFactor w)).sum))
      else none) ∧
    calculateWeightedAverage exampleWeights [recA, recB] = some (411/5) := by
  constructor
  · rw [calculateWeightedAverage, foldl_weightedStep_eq w l]
    simp
  · norm_num +decide [calculateWeightedAverage, weightedStep, contributesScore,
      truthy, weightFactor, recA, recB, baseRec, sourceWeightOf, exampleWeights,
      strLower]

/-- Counterexample for C5 as stated: a contributor with a present score
of 0 is skipped by the code (truthiness), so the code yields 80 where
the spec formula over "contributors that have a score" yields 320/9. -/
theorem weightedAverage_spec_counterexample :
    calculateWeightedAverage defaultSourceWeights [recZeroScore, recEighty] =
      some 80 ∧
    calculateWeightedAverageSpec defaultSourceWeights [recZeroScore, recEighty] =
      some (320/9) ∧
    some (80 : ℚ) ≠ some (320/9 : ℚ) := by
  refine ⟨?_, ?_, by norm_num⟩
  · norm_num +decide [calculateWeightedAverage, weightedStep, contributesScore,
      truthy, weightFactor, recZeroScore, recEighty, baseRec, sourceWeightOf,
      defaultSourceWeights, strLower]
  · norm_num +decide [calculateWeightedAverageSpec, recZeroScore, recEighty,
      baseRec, sourceWeightOf, defaultSourceWeights, strLower]

lemma groupFold_drop_failures :
    ∀ (outcomes : List (String × Except Unit (List AnimeData)))
      (m : List (String × List AnimeData)),
      ((outcomes.map (fun p =>
        (p.1, match p.2 with
              | Except.ok results => results
              | Except.error _ => []))).foldl groupStep m) =
      ((outcomes.filterMap (fun p =>
        match p.2 with
        | Except.ok results => some (p.1, results)
        | Except.error _ => none)).foldl groupStep m)
  | [], m => rfl
  | (n, Except.ok results) :: t, m => by
    simp only [List.map_cons, List.filterMap_cons, List.foldl_cons]
    exact groupFold_drop_failures t _
  | (n, Except.error e) :: t, m => by
    simp only [List.map_cons, List.filterMap_cons, List.foldl_cons]
    have hnil : groupStep m (n, ([] : List AnimeData)) = m := rfl
    rw [hnil]
    exact groupFold_drop_failures t m

/-- Claim C6 (confirmed): the aggregator search over any assignment of
per-adapter outcomes (success or thrown error/timeout) equals the merge
of the successful adapters alone — each failing adapter contributes an
empty result, and the search itself is a total function that never
fails. -/
theorem searchAnime_failures_dropped (w : String → Option ℚ)
    (outcomes : List (String × Except Unit (List AnimeData))) :
    searchAnime w outcomes =
      mergeSearchResults w (outcomes.filterMap (fun p =>
        match p.2 with
        | Except.ok results => some (p.1, results)
        | Except.error _ => none)) := by
  unfold searchAnime mergeSearchResults groupByKey
  rw [groupFold_drop_failures outcomes []]

lemma mem_setAdd (acc : List String) (s x : String) :
    x ∈ setAdd acc s ↔ x ∈ acc ∨ x = s := by
  unfold setAdd
  by_cases h : s ∈ acc
  · simp only [if_pos h]
    constructor
    · exact Or.inl
    · rintro (hx | rfl)
      · exact hx
      · exact h
  · simp [if_neg h]

lemma setAdd_nodup (acc : List String) (s : String) (h : acc.Nodup) :
    (setAdd acc s).Nodup := by
  unfold setAdd
  by_cases hs : s ∈ acc
  · simpa [if_pos hs]
  · rw [if_neg hs]
    simp only [List.nodup_append, List.nodup_singleton, true_and,
      List.disjoint_singleton]
    exact ⟨h, hs⟩

lemma foldl_setAdd_mem : ∀ (arr acc : List String) (x : String),
    (x ∈ arr.foldl setAdd acc ↔ x ∈ acc ∨ x ∈ arr)
  | [], acc, x => by simp
  | s :: arr, acc, x => by
    rw [List.foldl_cons, foldl_setAdd_mem arr (setAdd acc s) x, mem_setAdd]
    simp only [List.mem_cons]
    tauto

lemma foldl_setAdd_nodup : ∀ (arr acc : List String), acc.Nodup →
    (arr.foldl setAdd acc).Nodup
  | [], acc, h => h
  | s :: arr, acc, h =>
    foldl_setAdd_nodup arr (setAdd acc s) (setAdd_nodup acc s h)

lemma mergeArrays_mem (arrays : List (List String)) (x : String) :
    x ∈ mergeArrays arrays ↔ ∃ arr ∈ arrays, x ∈ arr := by
  unfold mergeArrays
  suffices h : ∀ (ls : List (List String)) (acc : List String),
      x ∈ ls.foldl (fun acc arr => arr.foldl setAdd acc) acc ↔
        x ∈ acc ∨ ∃ arr ∈ ls, x ∈ arr by
    rw [h arrays []]
    simp
  intro ls
  induction ls with
  | nil => simp
  | cons a t ih =>
    intro acc
    rw [List.foldl_cons, ih (a.foldl setAdd acc), foldl_setAdd_mem]
    simp only [List.mem_cons]
    constructor
    · rintro ((h | h) | ⟨arr, harr, hx⟩)
      · exact Or.inl h
      · exact Or.inr ⟨a, Or.inl rfl, h⟩
      · exact Or.inr ⟨arr, Or.inr harr, hx⟩
    · rintro (h | ⟨arr, (rfl | harr), hx⟩)
      · exact Or.inl (Or.inl h)
      · exact Or.inl (Or.inr hx)
      · exact Or.inr ⟨arr, harr, hx⟩

lemma mergeArrays_nodup (arrays : List (List String)) :
    (mergeArrays arrays).Nodup := by
  unfold mergeArrays
  suffices h : ∀ (ls : List (List String)) (acc : List String), acc.Nodup →
      (ls.foldl (fun acc arr => arr.foldl setAdd acc) acc).Nodup from
    h arrays [] List.nodup_nil
  intro ls
  induction ls with
  | nil => exact fun acc h => h
  | cons a t ih =>
    intro acc h
    exact ih _ (foldl_setAdd_nodup a acc h)

lemma mem_mergeArrays_map (f : AnimeData → List String)
    (ls : List AnimeData) (s : String) :
    s ∈ mergeArrays (ls.map f) ↔ ∃ a ∈ ls, s ∈ f a := by
  rw [mergeArrays_mem]
  constructor
  · rintro ⟨arr, harr, hx⟩
    obtain ⟨a, ha, rfl⟩ := List.mem_map.mp harr
    exact ⟨a, ha, hx⟩
  · rintro ⟨a, ha, hx⟩
    exact ⟨f a, List.mem_map_of_mem f ha, hx⟩

/-- Claim C2 (corrected, amended form): for a merge group, the merged
`genres`, `tags` and `studios` are the union of the contributors'
fields deduplicated by exact string equality with the first occurrence
kept (no duplicates remain; a string is present iff some contributor
has it), while `demographics`, `themes` and `producers` are copied from
the highest-confidence (primary) contributor rather than unioned. -/
theorem mergeAnimeData_setFields (w : String → Option ℚ) (l : List AnimeData)
    (primary : AnimeData) (rest : List AnimeData)
    (hs : sortByDesc confOr0 l = primary :: rest) :
    ((mergeAnimeData w l).genres.Nodup ∧
      ∀ s, s ∈ (mergeAnimeData w l).genres ↔ ∃ a ∈ l, s ∈ a.genres) ∧
    ((mergeAnimeData w l).tags.Nodup ∧
      ∀ s, s ∈ (mergeAnimeData w l).tags ↔ ∃ a ∈ l, s ∈ a.tags) ∧
    (∃ st, (mergeAnimeData w l).studios = some st ∧ st.Nodup ∧
      ∀ s, s ∈ st ↔ ∃ a ∈ l, s ∈ a.studios.getD []) ∧
    (mergeAnimeData w l).demographics = primary.demographics ∧
    (mergeAnimeData w l).themes = primary.themes ∧
    (mergeAnimeData w l).producers = primary.producers := by
  have hmem : ∀ a : AnimeData, a ∈ primary :: rest ↔ a ∈ l := by
    intro a
    rw [← hs, sortByDesc, List.mem_insertionSort]
  have hg : (mergeAnimeData w l).genres =
      mergeArrays ((primary :: rest).map (fun a => a.genres)) := by
    simp only [mergeAnimeData, hs]
  have ht : (mergeAnimeData w l).tags =
      mergeArrays ((primary :: rest).map (fun a => a.tags)) := by
    simp only [mergeAnimeData, hs]
  have hst : (mergeAnimeData w l).studios =
      some (mergeArrays ((primary :: rest).map (fun a => a.studios.getD []))) := by
    simp only [mergeAnimeData, hs]
  have hdemo : (mergeAnimeData w l).demographics = primary.demographics := by
    simp only [mergeAnimeData, hs]
  have hthemes : (mergeAnimeData w l).themes = primary.themes := by
    simp only [mergeAnimeData, hs]
  have hprod : (mergeAnimeData w l).producers = primary.producers := by
    simp only [mergeAnimeData, hs]
  refine ⟨⟨?_, ?_⟩, ⟨?_, ?_⟩, ⟨_, hst, ?_, ?_⟩, hdemo, hthemes, hprod⟩
  · rw [hg]; exact mergeArrays_nodup _
  · intro s
    rw [hg, mem_mergeArrays_map]
    simp only [hmem]
  · rw [ht]; exact mergeArrays_nodup _
  · intro s
    rw [ht, mem_mergeArrays_map]
    simp only [hmem]
  · exact mergeArrays_nodup _
  · intro s
    rw [mem_mergeArrays_map]
    simp only [hmem]

lemma sourceWeightOf_pos (w : String → Option ℚ)
    (hw : ∀ s v, w s = some v → 0 ≤ v) (source : String) :
    0 < sourceWeightOf w source := by
  unfold sourceWeightOf
  cases h : w (strLower source) with
  | none => norm_num
  | some v =>
    have hv := hw _ _ h
    show (0 : ℚ) < if v = 0 then 1/10 else v
    by_cases h0 : v = 0
    · rw [if_pos h0]; norm_num
    · rw [if_neg h0]
      exact lt_of_le_of_ne hv (Ne.symm h0)

lemma scoreConfInRange_score (a : AnimeData) (h : scoreConfInRange a = true)
    (s : ℚ) (hs : a.averageScore = some s) : 0 ≤ s ∧ s ≤ 100 := by
  unfold scoreConfInRange at h
  rw [hs] at h
  simp [Option.all] at h
  exact h.1

lemma scoreConfInRange_conf (a : AnimeData) (h : scoreConfInRange a = true)
    (c : ℚ) (hc : a.confidence = some c) : 0 ≤ c ∧ c ≤ 1 := by
  unfold scoreConfInRange at h
  rw [hc] at h
  simp [Option.all] at h
  exact h.2

lemma confOr0_range (a : AnimeData) (h : scoreConfInRange a = true) :
    0 ≤ confOr0 a ∧ confOr0 a ≤ 1 := by
  unfold confOr0
  cases hc : a.confidence with
  | none => norm_num
  | some c => simpa using scoreConfInRange_conf a h c hc

lemma weightedStep_invariant (w : String → Option ℚ)
    (hw : ∀ s v, w s = some v → 0 ≤ v) (a : AnimeData)
    (ha : scoreConfInRange a = true) (p : ℚ × ℚ)
    (hp : 0 ≤ p.2 ∧ 0 ≤ p.1 ∧ p.1 ≤ 100 * p.2) :
    0 ≤ (weightedStep w p a).2 ∧ 0 ≤ (weightedStep w p a).1 ∧
      (weightedStep w p a).1 ≤ 100 * (weightedStep w p a).2 := by
  by_cases hcs0 : contributesScore a = true
  · have hcs := hcs0
    unfold contributesScore truthy at hcs
    cases hsc : a.averageScore with
    | none => rw [hsc] at hcs; simp at hcs
    | some s =>
      cases hcf : a.confidence with
      | none => rw [hcf] at hcs; simp at hcs
      | some c =>
        have hsr := scoreConfInRange_score a ha s hsc
        have hcr := scoreConfInRange_conf a ha c hcf
        rw [hsc, hcf] at hcs
        simp at hcs
        have hcpos : 0 < c := lt_of_le_of_ne hcr.1 (Ne.symm hcs.2)
        have hwpos := sourceWeightOf_pos w hw a.source
        have hfpos : 0 < weightFactor w a := by
          unfold weightFactor
          rw [hcf]
          simp only [Option.getD_some]
          positivity
        have hstep : weightedStep w p a =
            (p.1 + s * weightFactor w a, p.2 + weightFactor w a) := by
          simp only [weightedStep, hcs0, if_true, hsc, Option.getD_some]
        rw [hstep]
        obtain ⟨hp2, hp1, hple⟩ := hp
        have hsf : 0 ≤ s * weightFactor w a :=
          mul_nonneg hsr.1 (le_of_lt hfpos)
        refine ⟨by simp only; linarith, by simp only; linarith, ?_⟩
        have h1 : s * weightFactor w a ≤ 100 * weightFactor w a :=
          mul_le_mul_of_nonneg_right hsr.2 (le_of_lt hfpos)
        calc p.1 + s * weightFactor w a
            ≤ 100 * p.2 + 100 * weightFactor w a := add_le_add hple h1
          _ = 100 * (p.2 + weightFactor w a) := by ring
  · have hcsf : contributesScore a = false := by simpa using hcs0
    have hstep : weightedStep w p a = p := by
      simp only [weightedStep, hcsf, Bool.false_eq_true, if_false]
    rw [hstep]
    exact hp

lemma foldl_weightedStep_invariant (w : String → Option ℚ)
    (hw : ∀ s v, w s = some v → 0 ≤ v) :
    ∀ (l : List AnimeData), (∀ a ∈ l, scoreConfInRange a = true) →
      ∀ (p : ℚ × ℚ), 0 ≤ p.2 ∧ 0 ≤ p.1 ∧ p.1 ≤ 100 * p.2 →
      0 ≤ (l.foldl (weightedStep w) p).2 ∧
        0 ≤ (l.foldl (weightedStep w) p).1 ∧
        (l.foldl (weightedStep w) p).1 ≤ 100 * (l.foldl (weightedStep w) p).2
  | [], _, p, hp => hp
  | a :: l, h, p, hp => by
    rw [List.foldl_cons]
    exact foldl_weightedStep_invariant w hw l
      (fun b hb => h b (List.mem_cons_of_mem _ hb))
      (weightedStep w p a)
      (weightedStep_invariant w hw a (h a (List.mem_cons_self _ _)) p hp)

lemma calculateWeightedAverage_range (w : String → Option ℚ)
    (hw : ∀ s v, w s = some v → 0 ≤ v) (l : List AnimeData)
    (h : ∀ a ∈ l, scoreConfInRange a = true) (q : ℚ)
    (hq : calculateWeightedAverage w l = some q) : 0 ≤ q ∧ q ≤ 100 := by
  unfold calculateWeightedAverage at hq
  obtain ⟨hd, hn, hle⟩ := foldl_weightedStep_invariant w hw l h (0, 0)
    (by norm_num)
  set t := l.foldl (weightedStep w) (0, 0) with ht
  by_cases hpos : t.2 > 0
  · rw [if_pos hpos] at hq
    obtain rfl := Option.some_injective _ hq.symm
    constructor
    · exact div_nonneg hn (le_of_lt hpos)
    · rw [div_le_iff₀ hpos]
      linarith
  · rw [if_neg hpos] at hq
    exact absurd hq (by simp)

lemma combinedConfidence_range (l : List AnimeData) (hne : l ≠ [])
    (h : ∀ a ∈ l, scoreConfInRange a = true) :
    0 ≤ calculateCombinedConfidence l ∧ calculateCombinedConfidence l ≤ 1 := by
  obtain ⟨⟨m, hm, hbase⟩, _⟩ := baseConfidence_isMax l hne
  have hmr := confOr0_range m (h m hm)
  have hlen : 1 ≤ l.length := by
    cases l with
    | nil => exact absurd rfl hne
    | cons a t => simp
  have hbonus : 0 ≤ min (2/10 : ℚ) (((l.length : ℚ) - 1) * (1/10)) := by
    have h1 : (1 : ℚ) ≤ (l.length : ℚ) := by exact_mod_cast hlen
    have h10 : (0 : ℚ) ≤ ((l.length : ℚ) - 1) * (1/10) := by nlinarith
    exact le_min (by norm_num) h10
  unfold calculateCombinedConfidence
  constructor
  · refine le_min (by norm_num) ?_
    rw [hbase]
    linarith [hmr.1]
  · exact min_le_left _ _

lemma mergeAnimeData_range (w : String → Option ℚ)
    (hw : ∀ s v, w s = some v → 0 ≤ v) (l : List AnimeData) (hne : l ≠ [])
    (h : ∀ a ∈ l, scoreConfInRange a = true) :
    scoreConfInRange (mergeAnimeData w l) = true := by
  have hsortmem : ∀ a ∈ sortByDesc confOr0 l, scoreConfInRange a = true := by
    intro a ha
    rw [sortByDesc, List.mem_insertionSort] at ha
    exact h a ha
  have hsortne : sortByDesc confOr0 l ≠ [] := by
    intro hnil
    have := congrArg List.length hnil
    rw [sortByDesc, List.length_insertionSort] at this
    simp at this
    exact hne this
  cases hs : sortByDesc confOr0 l with
  | nil => exact absurd hs hsortne
  | cons primary rest =>
    have hscore : (mergeAnimeData w l).averageScore =
        calculateWeightedAverage w (sortByDesc confOr0 l) := by
      simp only [mergeAnimeData, hs]
    have hconf : (mergeAnimeData w l).confidence =
        some (calculateCombinedConfidence (sortByDesc confOr0 l)) := by
      simp only [mergeAnimeData, hs]
    unfold scoreConfInRange
    rw [hscore, hconf]
    have hcr := combinedConfidence_range (sortByDesc confOr0 l)
      (by rw [hs]; simp) hsortmem
    cases hq : calculateWeightedAverage w (sortByDesc confOr0 l) with
    | none =>
      simp [Option.all]
      exact ⟨hcr.1, hcr.2⟩
    | some q =>
      have hqr := calculateWeightedAverage_range w hw _ hsortmem q hq
      simp [Option.all]
      exact ⟨⟨hqr.1, hqr.2⟩, hcr.1, hcr.2⟩

lemma mapPush_forall {Q : AnimeData → Prop} (k : String) (a : AnimeData) :
    ∀ (m : List (String × List AnimeData)),
      (∀ q ∈ m, ∀ b ∈ q.2, Q b) → Q a →
      ∀ q ∈ mapPush k a m, ∀ b ∈ q.2, Q b
  | [], hm, ha => by
    intro q hq b hb
    simp [mapPush] at hq
    subst hq
    simp at hb
    rw [hb]
    exact ha
  | (k2, l) :: rest, hm, ha => by
    intro q hq b hb
    unfold mapPush at hq
    by_cases hk : k2 = k
    · rw [if_pos hk] at hq
      rcases List.mem_cons.mp hq with rfl | hq
      · rcases List.mem_append.mp hb with hb | hb
        · exact hm (k2, l) (List.mem_cons_self _ _) b hb
        · simp at hb
          rw [hb]
          exact ha
      · exact hm q (List.mem_cons_of_mem _ hq) b hb
    · rw [if_neg hk] at hq
      rcases List.mem_cons.mp hq with rfl | hq
      · exact hm (k2, l) (List.mem_cons_self _ _) b hb
      · exact mapPush_forall k a rest
          (fun q2 hq2 => hm q2 (List.mem_cons_of_mem _ hq2)) ha q hq b hb

lemma innerFold_forall {Q : AnimeData → Prop} :
    ∀ (arr : List AnimeData) (m : List (String × List AnimeData)),
      (∀ q ∈ m, ∀ b ∈ q.2, Q b) → (∀ a ∈ arr, Q a) →
      ∀ q ∈ arr.foldl (fun m2 a => mapPush (generateAnimeKey a) a m2) m,
        ∀ b ∈ q.2, Q b
  | [], m, hm, _ => hm
  | a :: arr, m, hm, harr => by
    rw [List.foldl_cons]
    exact innerFold_forall arr _
      (mapPush_forall _ a m hm (harr a (List.mem_cons_self _ _)))
      (fun b hb => harr b (List.mem_cons_of_mem _ hb))

lemma groupByKey_forall {Q : AnimeData → Prop}
    (responses : List (String × List AnimeData))
    (h : ∀ p ∈ responses, ∀ b ∈ p.2, Q b) :
    ∀ q ∈ groupByKey responses, ∀ b ∈ q.2, Q b := by
  unfold groupByKey
  suffices haux : ∀ (rs : List (String × List AnimeData)) m,
      (∀ q ∈ m, ∀ b ∈ q.2, Q b) → (∀ p ∈ rs, ∀ b ∈ p.2, Q b) →
      ∀ q ∈ rs.foldl groupStep m, ∀ b ∈ q.2, Q b by
    exact haux responses [] (by simp) h
  intro rs
  induction rs with
  | nil => exact fun m hm _ => hm
  | cons p t ih =>
    intro m hm hrs
    rw [List.foldl_cons]
    exact ih _ (innerFold_forall p.2 m hm
        (fun b hb => hrs p (List.mem_cons_self _ _) b hb))
      (fun p2 hp2 => hrs p2 (List.mem_cons_of_mem _ hp2))

lemma mapPush_ne_nil (k : String) (a : AnimeData) :
    ∀ (m : List (String × List AnimeData)),
      (∀ q ∈ m, q.2 ≠ []) → ∀ q ∈ mapPush k a m, q.2 ≠ []
  | [], _ => by
    intro q hq
    simp [mapPush] at hq
    subst hq
    simp
  | (k2, l) :: rest, hm => by
    intro q hq
    unfold mapPush at hq
    by_cases hk : k2 = k
    · rw [if_pos hk] at hq
      rcases List.mem_cons.mp hq with rfl | hq
      · simp
      · exact hm q (List.mem_cons_of_mem _ hq)
    · rw [if_neg hk] at hq
      rcases List.mem_cons.mp hq with rfl | hq
      · exact hm (k2, l) (List.mem_cons_self _ _)
      · exact mapPush_ne_nil k a rest
          (fun q2 hq2 => hm q2 (List.mem_cons_of_mem _ hq2)) q hq

lemma innerFold_ne_nil :
    ∀ (arr : List AnimeData) (m : List (String × List AnimeData)),
      (∀ q ∈ m, q.2 ≠ []) →
      ∀ q ∈ arr.foldl (fun m2 a => mapPush (generateAnimeKey a) a m2) m,
        q.2 ≠ []
  | [], m, hm => hm
  | a :: arr, m, hm => by
    rw [List.foldl_cons]
    exact innerFold_ne_nil arr _ (mapPush_ne_nil _ a m hm)

lemma groupByKey_ne_nil (responses : List (String × List AnimeData)) :
    ∀ q ∈ groupByKey responses, q.2 ≠ [] := by
  unfold groupByKey
  suffices haux : ∀ (rs : List (String × List AnimeData)) m,
      (∀ q ∈ m, q.2 ≠ []) → ∀ q ∈ rs.foldl groupStep m, q.2 ≠ [] by
    exact haux responses [] (by simp)
  intro rs
  induction rs with
  | nil => exact fun m hm => hm
  | cons p t ih =>
    intro m hm
    rw [List.foldl_cons]
    exact ih _ (innerFold_ne_nil p.2 m hm)

/-- Claim C1 (corrected, amended form): provided every adapter-supplied
record has `averageScore` in [0,100] and `confidence` in [0,1] (when
present) and the configured weights are nonnegative, every record
returned by the aggregator search — singleton pass-through or
confidence-merged — again has `averageScore` in [0,100] and
`confidence` in [0,1].  No clamping is performed by the code, so this
in-range guarantee does NOT hold for out-of-range adapter values (see
the counterexample). -/
theorem searchAnime_range_amended (w : String → Option ℚ)
    (outcomes : List (String × Except Unit (List AnimeData)))
    (hw : ∀ s v, w s = some v → 0 ≤ v)
    (h : ∀ p ∈ outcomes, ∀ results, p.2 = Except.ok results →
      ∀ a ∈ results, scoreConfInRange a = true) :
    ∀ r ∈ searchAnime w outcomes, scoreConfInRange r = true := by
  intro r hr
  unfold searchAnime mergeSearchResults at hr
  rw [sortByDesc, List.mem_insertionSort] at hr
  obtain ⟨q, hq, hr⟩ := List.mem_map.mp hr
  have hresp : ∀ p ∈ outcomes.map (fun p =>
      (p.1, match p.2 with
            | Except.ok results => results
            | Except.error _ => [])), ∀ b ∈ p.2, scoreConfInRange b = true := by
    intro p hp b hb
    obtain ⟨p0, hp0, rfl⟩ := List.mem_map.mp hp
    cases he : p0.2 with
    | ok results =>
      rw [he] at hb
      exact h p0 hp0 results he b hb
    | error e =>
      rw [he] at hb
      simp at hb
  have hmem := groupByKey_forall _ hresp q hq
  have hne := groupByKey_ne_nil _ q hq
  rw [← hr]
  cases hq2 : q.2 with
  | nil => exact absurd hq2 hne
  | cons a rest =>
    rw [hq2] at hmem
    cases rest with
    | nil =>
      have he : mergeGroup w [a] = a := rfl
      rw [he]
      exact hmem a (List.mem_cons_self _ _)
    | cons b rest2 =>
      have he : mergeGroup w (a :: b :: rest2) =
          mergeAnimeData w (a :: b :: rest2) := rfl
      rw [he]
      exact mergeAnimeData_range w hw _ (by simp) hmem

lemma mapDelete_sublist {α : Type} (key : String) :
    ∀ (store : Store α), (mapDelete key store).Sublist store
  | [] => List.Sublist.refl []
  | (k, it) :: rest => by
    unfold mapDelete
    by_cases hk : k = key
    · rw [if_pos hk]
      exact (List.sublist_cons_self _ _)
    · rw [if_neg hk]
      exact List.Sublist.cons₂ _ (mapDelete_sublist key rest)

lemma mapDelete_length_of_mem {α : Type} (key : String) :
    ∀ (store : Store α), key ∈ store.map Prod.fst →
      (mapDelete key store).length + 1 = store.length
  | [], h => by simp at h
  | (k, it) :: rest, h => by
    unfold mapDelete
    by_cases hk : k = key
    · rw [if_pos hk]
      simp
    · rw [if_neg hk]
      simp only [List.map_cons, List.mem_cons] at h
      rcases h with h | h
      · exact absurd h.symm hk
      · simpa using mapDelete_length_of_mem key rest h

lemma mapDelete_mem_keys {α : Type} (key k2 : String) (hne : k2 ≠ key) :
    ∀ (store : Store α),
      k2 ∈ store.map Prod.fst → k2 ∈ (mapDelete key store).map Prod.fst
  | [], h => by simp at h
  | (k, it) :: rest, h => by
    unfold mapDelete
    simp only [List.map_cons, List.mem_cons] at h
    by_cases hk : k = key
    · rw [if_pos hk]
      rcases h with h | h
      · exact absurd (h.trans hk) hne
      · exact h
    · rw [if_neg hk]
      rcases h with h | h
      · simp [h]
      · simp only [List.map_cons, List.mem_cons]
        exact Or.inr (mapDelete_mem_keys key k2 hne rest h)

lemma foldl_mapDelete_length {α : Type} :
    ∀ (toRemove : List (String × CacheItem α)) (acc : Store α),
      (toRemove.map Prod.fst).Nodup →
      (∀ p ∈ toRemove, p.1 ∈ acc.map Prod.fst) →
      (toRemove.foldl (fun acc2 p => mapDelete p.1 acc2) acc).length +
        toRemove.length = acc.length
  | [], acc, _, _ => by simp
  | p :: t, acc, hnodup, hall => by
    rw [List.foldl_cons]
    have hmem : p.1 ∈ acc.map Prod.fst := hall p (List.mem_cons_self _ _)
    have hlen := mapDelete_length_of_mem p.1 acc hmem
    have hnodup2 : (t.map Prod.fst).Nodup := by
      simp only [List.map_cons, List.nodup_cons] at hnodup
      exact hnodup.2
    have hall2 : ∀ q ∈ t, q.1 ∈ (mapDelete p.1 acc).map Prod.fst := by
      intro q hq
      have hqne : q.1 ≠ p.1 := by
        simp only [List.map_cons, List.nodup_cons] at hnodup
        intro heq
        exact hnodup.1 (heq ▸ List.mem_map_of_mem Prod.fst hq)
      exact mapDelete_mem_keys p.1 q.1 hqne acc (hall q (List.mem_cons_of_mem _ hq))
    have := foldl_mapDelete_length t (mapDelete p.1 acc) hnodup2 hall2
    simp only [List.length_cons]
    omega

lemma mapSet_length_le {α : Type} (key : String) (item : CacheItem α) :
    ∀ (store : Store α), (mapSet key item store).length ≤ store.length + 1
  | [] => by simp [mapSet]
  | (k, it) :: rest => by
    unfold mapSet
    by_cases hk : k = key
    · rw [if_pos hk]; simp
    · rw [if_neg hk]
      simpa using mapSet_length_le key item rest

lemma cleanup_length {α : Type} (now : ℤ) (cap : ℕ) (store : Store α)
    (hkeys : (store.map Prod.fst).Nodup) :
    (cleanup now cap store).length =
      min (store.filter (fun p => !isExpired now p.2)).length cap := by
  unfold cleanup
  set alive := store.filter (fun p => !isExpired now p.2) with halive
  have hsub : alive.Sublist store := List.filter_sublist store
  have halivekeys : (alive.map Prod.fst).Nodup :=
    List.Nodup.sublist (List.Sublist.map Prod.fst hsub) hkeys
  by_cases hbig : cap < alive.length
  · rw [if_pos hbig]
    set entries := List.insertionSort
      (fun p q : String × CacheItem α => p.2.timestamp ≤ q.2.timestamp) alive
      with hentries
    have hperm : entries.Perm alive := List.perm_insertionSort _ _
    have hentkeys : (entries.map Prod.fst).Nodup :=
      (List.Perm.nodup_iff (List.Perm.map Prod.fst hperm)).mpr halivekeys
    have htkkeys : ((entries.take (alive.length - cap)).map Prod.fst).Nodup :=
      List.Nodup.sublist (List.Sublist.map Prod.fst (List.take_sublist _ _))
        hentkeys
    have hallin : ∀ p ∈ entries.take (alive.length - cap),
        p.1 ∈ alive.map Prod.fst := by
      intro p hp
      exact List.mem_map_of_mem Prod.fst
        (hperm.mem_iff.mp (List.mem_of_mem_take hp))
    have hfold := foldl_mapDelete_length (entries.take (alive.length - cap))
      alive htkkeys hallin
    have htklen : (entries.take (alive.length - cap)).length =
        alive.length - cap := by
      rw [List.length_take]
      have : entries.length = alive.length := hperm.length_eq
      omega
    rw [htklen] at hfold
    show (List.foldl (fun acc2 p => mapDelete p.1 acc2) alive
      (List.take (alive.length - cap) entries)).length = min alive.length cap
    omega
  · rw [if_neg hbig]
    omega

/-- Claim C3 (corrected, amended form): `set` first runs `cleanup`
(delete expired entries; if the store still exceeds the cap, evict
oldest-by-insertion-time entries until exactly at the cap) and only
then inserts, so a store with distinct keys holds at most `cap + 1`
entries after a `set`.  With `maxSize = 2`, inserting k1, k2, k3 leaves
all three keys retrievable; k1 is evicted only by the fourth insertion,
after which k2, k3, k4 remain retrievable. -/
theorem cacheEviction_amended :
    (∀ (α : Type) (now ttl : ℤ) (cap : ℕ) (k : String) (v : α) (store : Store α),
      setStore now ttl cap k v store =
        mapSet k ⟨v, now, ttl⟩ (cleanup now cap store) ∧
      ((store.map Prod.fst).Nodup →
        (cleanup now cap store).length =
          min (store.filter (fun p => !isExpired now p.2)).length cap ∧
        (setStore now ttl cap k v store).length ≤ cap + 1)) ∧
    ((getStore cacheS3 "k1" 3).1 = some 1 ∧ (getStore cacheS3 "k2" 3).1 = some 2 ∧
      (getStore cacheS3 "k3" 3).1 = some 3 ∧ cacheS3.length = 3) ∧
    ((getStore cacheS4 "k1" 4).1 = none ∧ (getStore cacheS4 "k2" 4).1 = some 2 ∧
      (getStore cacheS4 "k3" 4).1 = some 3 ∧ (getStore cacheS4 "k4" 4).1 = some 4 ∧
      cacheS4.length = 3) := by
  refine ⟨?_, by decide, by decide⟩
  intro α now ttl cap k v store
  refine ⟨rfl, fun hkeys => ⟨cleanup_length now cap store hkeys, ?_⟩⟩
  calc (setStore now ttl cap k v store).length
      ≤ (cleanup now cap store).length + 1 := mapSet_length_le _ _ _
    _ ≤ cap + 1 := by
        have := cleanup_length now cap store hkeys
        omega

/-- Witness for C3 amended: a concrete fourth insertion into the
three-entry cap-2 store stays within `cap + 1` entries. -/
theorem cacheEviction_amended_witness :
    (setStore 5 100 2 "k9" (9 : ℕ) cacheS3).length ≤ 2 + 1 :=
  ((cacheEviction_amended.1 ℕ 5 100 2 "k9" 9 cacheS3).2 (by decide)).2

/-- Counterexample for C3 as stated: after inserting k1, k2, k3 into a
cap-2 store, k1 is still retrievable and the store holds three entries —
the claimed eviction of k1 on the third insert does not happen. -/
theorem cacheEviction_counterexample :
    (getStore cacheS3 "k1" 3).1 = some 1 ∧ 2 < cacheS3.length := by decide

/-- Witness for C1 amended: a concrete in-range record comes back
in range from the search pipeline. -/
theorem searchAnime_range_amended_witness :
    scoreConfInRange recInRange = true := by
  refine searchAnime_range_amended defaultSourceWeights
    [("anilist", Except.ok [recInRange])] ?_ ?_ recInRange (by decide)
  · intro s v hv
    unfold defaultSourceWeights at hv
    split_ifs at hv <;>
      injection hv with hv <;> rw [← hv] <;> norm_num
  · intro p hp results he a ha
    simp at hp
    rw [hp] at he
    simp at he
    rw [← he] at ha
    simp at ha
    rw [ha]
    decide

/-- Witness for C2 amended: on the concrete two-record group, the
merged demographics are the primary contributor's. -/
theorem mergeAnimeData_setFields_witness :
    (mergeAnimeData defaultSourceWeights [recUpper, recLower]).demographics =
      recUpper.demographics := by
  have hsort : sortByDesc confOr0 [recUpper, recLower] =
      recUpper :: [recLower] := by
    norm_num +decide [sortByDesc, List.insertionSort, List.orderedInsert,
      confOr0, recUpper, recLower, baseRec]
  exact (mergeAnimeData_setFields defaultSourceWeights
    [recUpper, recLower] recUpper [recLower] hsort).2.2.2.1

/-- Counterexample for C2 as stated: genres "Action" and "action"
(differing only in case) both survive the merge, whereas the spec's
case-insensitive union keeps only "Action"; and demographics are not
unioned at all — the merged record keeps only the primary's list. -/
theorem mergeSetFields_counterexample :
    (mergeAnimeData defaultSourceWeights [recUpper, recLower]).genres =
      ["Action", "action"] ∧
    mergeArraysSpec [recUpper.genres, recLower.genres] = ["Action"] ∧
    (mergeAnimeData defaultSourceWeights [recUpper, recLower]).demographics =
      some ["Shounen"] ∧
    mergeArraysSpec [recUpper.demographics.getD [],
      recLower.demographics.getD []] = ["Shounen", "Seinen"] := by
  have hsort : sortByDesc confOr0 [recUpper, recLower] =
      [recUpper, recLower] := by
    norm_num +decide [sortByDesc, List.insertionSort, List.orderedInsert,
      confOr0, recUpper, recLower, baseRec]
  have hg1 : recUpper.genres = ["Action"] := rfl
  have hg2 : recLower.genres = ["action"] := rfl
  have hd1 : recUpper.demographics = some ["Shounen"] := rfl
  have hd2 : recLower.demographics = some ["Seinen"] := rfl
  refine ⟨?_, ?_, ?_, ?_⟩
  · simp only [mergeAnimeData, hsort]
    norm_num +decide [mergeArrays, setAdd, hg1, hg2]
  · norm_num +decide [mergeArraysSpec, setAddCI, strLower, hg1, hg2]
  · simp only [mergeAnimeData, hsort]
    rw [hd1]
  · norm_num +decide [mergeArraysSpec, setAddCI, strLower, hd1, hd2]

/-- Counterexample for C1 as stated: an adapter record with
`averageScore = 200` and `confidence = 2` is returned unchanged by the
aggregator search — nothing clamps it to the declared ranges. -/
theorem searchAnime_clamping_counterexample :
    recOutOfRange ∈ searchAnime defaultSourceWeights
      [("anilist", Except.ok [recOutOfRange])] ∧
    recOutOfRange.averageScore = some 200 ∧
    recOutOfRange.confidence = some 2 ∧
    scoreConfInRange recOutOfRange = false := by decide
